import Mathlib

set_option autoImplicit false

/-!
Shallow embedding of the builtin provider service client of this repository
(`path_regex.go` and the service-client file), together with theorems that
settle the specification claims about it.

Go strings are modelled by Lean `String`; Go slices by `List`; Go maps by
association lists; `float64`-stored line numbers by `Int` (the code only ever
stores integral line numbers or the `-1` failure sentinel).  External
collaborators (the Go regexp engines, `os.Stat`, `provider.MultilineGrep`)
are passed in as explicit oracle parameters, so every function here is a pure,
executable translation of the corresponding Go code.
-/

/- ### Basic Go string primitives -/

/-- Go `strings.HasPrefix(s, pre)`. -/
def goHasPrefix (s pre : String) : Bool :=
  pre.data.isPrefixOf s.data

/-- Split a character list at every occurrence of the separator character,
keeping empty fields, exactly as Go `strings.Split` does for a one-character
separator. -/
def splitCharsAux (sep : Char) : List Char → List Char → List (List Char)
  | [], acc => [acc.reverse]
  | c :: rest, acc =>
    if c = sep then acc.reverse :: splitCharsAux sep rest []
    else splitCharsAux sep rest (c :: acc)

/-- Go `strings.Split(s, sep)` for a one-character separator. -/
def goSplit (s : String) (sep : Char) : List String :=
  (splitCharsAux sep s.data []).map String.mk

/-- Concatenate a list of strings with no separator: Go `strings.Join(l, "")`. -/
def concatAll (l : List String) : String :=
  l.foldl (fun acc s => acc ++ s) ""

/-- Go `strings.Join(l, sep)`. -/
def goJoin (sep : String) : List String → String
  | [] => ""
  | [x] => x
  | x :: xs => x ++ sep ++ goJoin sep xs

/- ### C1: engine selection in `compileRegex` (path_regex.go) -/

/-- The `LOOK_SYNTAX` variable of `path_regex.go`: the four lookaround
opening sequences. -/
def lookSyntax : List String := ["(?=", "(?!", "(?<=", "(?<!"]

/-- The two regex engines a `regexSelector` can wrap: Go `regexp`
(deterministic) in field `goRegex`, or `regexp2` (backtracking, lookaround
capable) in field `lookRegex`. -/
inductive EngineKind where
  | deterministic
  | backtracking
deriving DecidableEq, Repr

/-- Engine selection performed by `compileRegex`: the code tests
`slices.Contains(LOOK_SYNTAX, pattern)`, i.e. whether the pattern is *equal*
to one of the four lookaround sequences. -/
def compileRegexEngine (pattern : String) : EngineKind :=
  if lookSyntax.contains pattern then .backtracking else .deterministic

/-- Engine selection as the specification words it: the backtracking engine is
chosen exactly when the pattern *begins with* one of the four lookaround
sequences. -/
def specCompileRegexEngine (pattern : String) : EngineKind :=
  if lookSyntax.any (fun l => goHasPrefix pattern l) then .backtracking
  else .deterministic

/-- C1: for the pattern `(?=a)b`, which begins with the lookaround sequence
`(?=` without being equal to any of the four sequences, `compileRegex` selects
the deterministic engine, while the claim requires the backtracking engine.
(The deterministic Go `regexp` engine then rejects the pattern outright, so no
lookaround pattern other than the four bare two/three-character sequences —
themselves invalid regexes — can ever reach the backtracking engine: the
`lookRegex` branch of the code is dead, which shows the equality test is a
slip for the intended `strings.HasPrefix` test.) -/
theorem compileRegexEngine_bug_at_lookahead_pattern :
    compileRegexEngine "(?=a)b" = EngineKind.deterministic ∧
    specCompileRegexEngine "(?=a)b" = EngineKind.backtracking := by
  constructor <;> rfl

/- ### Go `path/filepath` primitives (unix separator), used by the client -/

/-- Segment processing of Go `filepath.Clean`: drop empty and `.` elements,
let `..` cancel a preceding element (or survive at the front of a relative
path, or vanish at the root of a rooted path).  The stack is kept reversed. -/
def cleanSegsRev (rooted : Bool) : List String → List String → List String
  | [], stack => stack
  | seg :: rest, stack =>
    if seg = "" ∨ seg = "." then cleanSegsRev rooted rest stack
    else if seg = ".." then
      match stack with
      | [] => cleanSegsRev rooted rest (if rooted then [] else [".."])
      | top :: below =>
        if top = ".." then cleanSegsRev rooted rest (".." :: stack)
        else cleanSegsRev rooted rest below
    else cleanSegsRev rooted rest (seg :: stack)

/-- Go `filepath.Clean` for slash-separated paths. -/
def goClean (p : String) : String :=
  let rooted := goHasPrefix p "/"
  let segs := (cleanSegsRev rooted (goSplit p '/') []).reverse
  if segs = [] then (if rooted then "/" else ".")
  else (if rooted then "/" else "") ++ goJoin "/" segs

/-- Go `filepath.Join(a, b)`: non-empty elements joined with the separator,
then cleaned; all-empty argument lists give the empty string. -/
def goFilepathJoin (a b : String) : String :=
  if a = "" ∧ b = "" then ""
  else if a = "" then goClean b
  else if b = "" then goClean a
  else goClean (a ++ "/" ++ b)

/-- Go `filepath.Abs` with the working directory passed explicitly: an
absolute path is cleaned, a relative one is joined onto the working
directory. -/
def goAbs (wd p : String) : String :=
  if goHasPrefix p "/" then goClean p else goFilepathJoin wd p

/-- Go `filepath.Dir`: everything up to and including the final separator,
cleaned; a path without separators has directory `.`. -/
def goDir (p : String) : String :=
  let parts := goSplit p '/'
  if parts.length ≤ 1 then "."
  else goClean (goJoin "/" parts.dropLast ++ "/")

/- ### C5: `isFileIncluded` -/

/-- The `getSegments` closure of `isFileIncluded`: clean the path, split on
the separator, and keep the non-empty segments. -/
def getSegments (path : String) : List String :=
  (goSplit (goClean path) '/').filter (fun s => s ≠ "")

/-- `isFileIncluded` from the service client.  `statDir` is the `os.Stat`
oracle: `some b` means stat succeeded and reported `IsDir() = b`, `none`
means stat failed.  For each configured included path the code joins it onto
the configured location, makes it absolute, picks the candidate's own
segments (file scope) or its parent directory's segments (directory scope),
and then compares `len` and `strings.HasPrefix` of the *concatenations* of
the two segment lists. -/
def isFileIncluded (includedPaths : List String) (location wd : String)
    (statDir : String → Option Bool) (absolutePath : String) : Bool :=
  if includedPaths.isEmpty then true
  else includedPaths.any (fun path =>
    let includedPath := goAbs wd (goFilepathJoin location path)
    let pathSegments :=
      if statDir includedPath = some true then getSegments (goDir absolutePath)
      else getSegments absolutePath
    let includedPathSegments := getSegments includedPath
    decide (includedPathSegments.length ≤ pathSegments.length) &&
      goHasPrefix (concatAll pathSegments) (concatAll includedPathSegments))

/-- The inclusion test as claim C5 words it: some scope's segment list is a
*segment-wise* prefix of the relevant candidate segment list. -/
def claimFileIncluded (includedPaths : List String) (location wd : String)
    (statDir : String → Option Bool) (absolutePath : String) : Prop :=
  includedPaths = [] ∨
    ∃ scope ∈ includedPaths,
      (getSegments (goAbs wd (goFilepathJoin location scope))) <+:
        (if statDir (goAbs wd (goFilepathJoin location scope)) = some true
         then getSegments (goDir absolutePath)
         else getSegments absolutePath)

/-- The inclusion test as the counterexample forces it to be amended: the
scope's segment list need not be a segment-wise prefix; the code only
requires that the candidate has at least as many segments and that the
*concatenation* of the scope's segments is a string prefix of the
concatenation of the candidate's segments. -/
def amendedFileIncluded (includedPaths : List String) (location wd : String)
    (statDir : String → Option Bool) (absolutePath : String) : Prop :=
  includedPaths = [] ∨
    ∃ scope ∈ includedPaths,
      (getSegments (goAbs wd (goFilepathJoin location scope))).length ≤
        (if statDir (goAbs wd (goFilepathJoin location scope)) = some true
         then getSegments (goDir absolutePath)
         else getSegments absolutePath).length ∧
      goHasPrefix
        (concatAll (if statDir (goAbs wd (goFilepathJoin location scope)) = some true
                    then getSegments (goDir absolutePath)
                    else getSegments absolutePath))
        (concatAll (getSegments (goAbs wd (goFilepathJoin location scope)))) = true

/-- C5 counterexample: with the single file scope `ab` under location `/`
(`os.Stat` failing, hence a file scope), the candidate `/a/bc` is *included*
by the code — segment concatenations are `"abc"` and `"ab"` and the string
prefix test succeeds — although the scope's segment list `["ab"]` is not a
segment-wise prefix of the candidate's segments `["a", "bc"]`, so the claim
says it must be excluded. -/
theorem isFileIncluded_not_segmentwise :
    isFileIncluded ["ab"] "/" "/" (fun _ => none) "/a/bc" = true ∧
    ¬ claimFileIncluded ["ab"] "/" "/" (fun _ => none) "/a/bc" := by
  constructor
  · rfl
  · intro h
    rcases h with h | ⟨s, hs, hpre⟩
    · exact List.cons_ne_nil _ _ h
    · rw [List.mem_singleton] at hs
      subst hs
      revert hpre
      decide

/-- C5 (amended): with no configured scopes every path is included; with
scopes configured, a path is included iff some scope passes the code's
segment-count and concatenated-string-prefix test (with the parent-directory
segments used for a scope that stats as a directory). -/
theorem isFileIncluded_iff_amended (includedPaths : List String)
    (location wd : String) (statDir : String → Option Bool)
    (absolutePath : String) :
    isFileIncluded includedPaths location wd statDir absolutePath = true ↔
      amendedFileIncluded includedPaths location wd statDir absolutePath := by
  cases includedPaths with
  | nil => simp [isFileIncluded, amendedFileIncluded]
  | cons a l =>
    simp [isFileIncluded, amendedFileIncluded, List.any_eq_true,
      Bool.and_eq_true, decide_eq_true_eq]

/- ### `getLocation`: fuzzy location resolution with cache (C6, C8) -/

/-- Go `strings.Trim(s, " ")`: strip leading and trailing space characters. -/
def trimSpaces (s : String) : String :=
  String.mk (((s.data.dropWhile (fun c => c = ' ')).reverse.dropWhile
    (fun c => c = ' ')).reverse)

/-- Go `strings.ReplaceAll(s, "\t", "")`: remove every tab character. -/
def removeTabs (s : String) : String :=
  String.mk (s.data.filter (fun c => c ≠ '\t'))

/-- The characters Go `regexp.QuoteMeta` escapes. -/
def isRegexSpecial (c : Char) : Bool :=
  c = '\\' || c = '.' || c = '+' || c = '*' || c = '?' || c = '(' || c = ')' ||
  c = '|' || c = '[' || c = ']' || c = '\x7b' || c = '\x7d' || c = '^' || c = '$'

/-- Go `regexp.QuoteMeta`. -/
def quoteMeta (s : String) : String :=
  String.mk (s.data.foldr (fun c acc =>
    if isRegexSpecial c then '\\' :: c :: acc else c :: acc) [])

/-- One line of `getLocation` preprocessing: trim spaces, remove tabs, escape
regex metacharacters. -/
def processLine (part : String) : String :=
  quoteMeta (removeTabs (trimSpaces part))

/-- `getLocation`: drop the first line when it processed to empty. -/
def dropBlankHead (l : List String) : List String :=
  if l.head? = some "" then l.tail else l

/-- `getLocation`: drop the last line when it processed to empty. -/
def dropBlankLast (l : List String) : List String :=
  if l.getLast? = some "" then l.dropLast else l

/-- `getLocation`: remove one leading and one trailing empty processed line. -/
def trimBoundary (l : List String) : List String :=
  dropBlankLast (dropBlankHead l)

/-- The processed snippet lines of `getLocation`: split the content on
newlines, cap at the first 5 lines, process each line, and strip a blank
first and last line. -/
def deriveLines (content : String) : List String :=
  let parts := goSplit content '\n'
  let parts := if parts.length > 5 then parts.take 5 else parts
  trimBoundary (parts.map processLine)

/-- The `(cache key, fuzzy pattern, line count)` triple `getLocation` derives
from a path and a content snippet; `none` is the empty-content early exit
(taken before any cache access). -/
def deriveKeyPattern (path content : String) : Option (String × String × Nat) :=
  let parts := goSplit content '\n'
  if parts.length < 1 then none
  else
    let lines := deriveLines content
    if lines.length < 1 ∨ concatAll lines = "" then none
    else
      let pattern := ".*?" ++ goJoin ".*?" lines
      some (path ++ "-" ++ pattern, pattern, lines.length)

/-- The location cache `map[string]float64`, modelled as an association list
where an assignment shadows older entries. -/
def Cache : Type := List (String × Int)

/-- Map lookup. -/
def cacheGet (c : Cache) (k : String) : Option Int :=
  match List.find? (fun e => e.1 == k) c with
  | some e => some e.2
  | none => none

/-- Map assignment. -/
def cacheSet (c : Cache) (k : String) (v : Int) : Cache :=
  (k, v) :: c

/-- A resolved code location (start and end line, single-line granularity). -/
structure CodeLoc where
  startLine : Int
  endLine : Int
deriving DecidableEq, Repr

/-- `getLocation` of the service client.  `grep` is the external
`provider.MultilineGrep` collaborator: called with the number of pattern
lines, the path and the fuzzy pattern, it returns `none` on error and
`some n` for the reported line number (`-1` meaning not found).  The result
is the location or an error, paired with the updated cache: a `-1` sentinel
is stored for a failed resolution, the line number for a successful one, and
nothing at all on the empty-content early exit. -/
def getLocation (cache : Cache) (grep : Nat → String → String → Option Int)
    (path content : String) : Except String CodeLoc × Cache :=
  match deriveKeyPattern path content with
  | none => (.error "unable to get code location, empty content", cache)
  | some (cacheKey, pattern, numLines) =>
    match cacheGet cache cacheKey with
    | some val =>
      if val = -1 then
        (.error "unable to get location due to a previous error", cache)
      else (.ok ⟨val, val⟩, cache)
    | none =>
      match grep numLines path pattern with
      | none =>
        (.error ("unable to get location in file " ++ path),
          cacheSet cache cacheKey (-1))
      | some lineNumber =>
        if lineNumber = -1 then
          (.error ("unable to get location in file " ++ path),
            cacheSet cache cacheKey (-1))
        else (.ok ⟨lineNumber, lineNumber⟩, cacheSet cache cacheKey lineNumber)

/-- `trimBoundary` only removes elements. -/
theorem trimBoundary_subset (l : List String) : trimBoundary l ⊆ l := by
  intro x hx
  unfold trimBoundary dropBlankLast at hx
  have hx1 : x ∈ dropBlankHead l := by
    by_cases h : (dropBlankHead l).getLast? = some ""
    · rw [if_pos h] at hx
      exact List.dropLast_subset _ hx
    · rwa [if_neg h] at hx
  unfold dropBlankHead at hx1
  by_cases h : l.head? = some ""
  · rw [if_pos h] at hx1
    exact List.mem_of_mem_tail hx1
  · rwa [if_neg h] at hx1

/-- Folding string concatenation over all-empty strings returns the
accumulator. -/
theorem concatAll_eq_empty (l : List String) (h : ∀ s ∈ l, s = "") :
    concatAll l = "" := by
  unfold concatAll
  induction l with
  | nil => rfl
  | cons a rest ih =>
    have ha : a = "" := h a (List.mem_cons_self a rest)
    have hrest : ∀ s ∈ rest, s = "" := fun s hs => h s (List.mem_cons_of_mem a hs)
    simp only [List.foldl_cons, ha]
    exact ih hrest

/-- A line of only spaces and tabs processes to the empty string, and so does
the empty string itself. -/
theorem processLine_empty (part : String)
    (h : removeTabs (trimSpaces part) = "") : processLine part = "" := by
  unfold processLine
  rw [h]
  rfl

/-- When every raw content line is blank after trimming, the derived line
list is entirely empty strings. -/
theorem deriveLines_all_empty (content : String)
    (h : ∀ line ∈ goSplit content '\n', removeTabs (trimSpaces line) = "") :
    ∀ s ∈ deriveLines content, s = "" := by
  intro s hs
  unfold deriveLines at hs
  have hs2 := trimBoundary_subset _ hs
  rcases List.mem_map.mp hs2 with ⟨p, hpmem, rfl⟩
  have hp : p ∈ goSplit content '\n' := by
    by_cases hlen : (goSplit content '\n').length > 5
    · rw [if_pos hlen] at hpmem
      exact List.take_subset _ _ hpmem
    · rwa [if_neg hlen] at hpmem
  exact processLine_empty p (h p hp)

/-- Blank content never reaches the cache or the grep call: the derived key
is `none`. -/
theorem deriveKeyPattern_none_of_blank (path content : String)
    (h : ∀ line ∈ goSplit content '\n', removeTabs (trimSpaces line) = "") :
    deriveKeyPattern path content = none := by
  unfold deriveKeyPattern
  by_cases hlen : (goSplit content '\n').length < 1
  · rw [if_pos hlen]
  · rw [if_neg hlen]
    have hcat : concatAll (deriveLines content) = "" :=
      concatAll_eq_empty _ (deriveLines_all_empty content h)
    rw [if_pos (Or.inr hcat)]

/-- C8: on content whose every line is whitespace-only (blank after trimming
spaces and removing tabs), `getLocation` fails with the empty-content error
and leaves the cache untouched — no entry is written for the key. -/
theorem getLocation_blank_content (cache : Cache)
    (grep : Nat → String → String → Option Int) (path content : String)
    (h : ∀ line ∈ goSplit content '\n', removeTabs (trimSpaces line) = "") :
    getLocation cache grep path content =
      (Except.error "unable to get code location, empty content", cache) := by
  unfold getLocation
  rw [deriveKeyPattern_none_of_blank path content h]

/-- C8 witness: the two-line all-whitespace content `"  \n\t\t "` hits the
empty-content error on an empty cache and writes nothing. -/
theorem getLocation_blank_content_witness :
    getLocation [] (fun _ _ _ => none) "/f.xml" "  \n\t\t " =
      (Except.error "unable to get code location, empty content", []) :=
  getLocation_blank_content [] (fun _ _ _ => none) "/f.xml" "  \n\t\t "
    (by decide)

/-- Setting a key makes it immediately readable. -/
theorem cacheGet_cacheSet (c : Cache) (k : String) (v : Int) :
    cacheGet (cacheSet c k v) k = some v := by
  unfold cacheGet cacheSet
  simp [List.find?]

/-- C6: once `getLocation` has resolved a `(path, content)` pair whose
derived key exists (the content is not blank), a second call with the same
pair replays the stored result for *any* behaviour of the grep oracle — the
file is not re-scanned: a stored success is returned identically, a stored
failure sentinel is replayed as an error, and the cache is left unchanged by
the second call. -/
theorem getLocation_replays_cached (cache : Cache)
    (grep1 grep2 : Nat → String → String → Option Int) (path content : String)
    (h : (deriveKeyPattern path content).isSome = true) :
    (getLocation (getLocation cache grep1 path content).2 grep2 path content).2 =
      (getLocation cache grep1 path content).2 ∧
    (∀ loc : CodeLoc, (getLocation cache grep1 path content).1 = .ok loc →
      (getLocation (getLocation cache grep1 path content).2 grep2 path content).1 =
        .ok loc) ∧
    (∀ e : String, (getLocation cache grep1 path content).1 = .error e →
      ∃ e2 : String,
        (getLocation (getLocation cache grep1 path content).2 grep2 path content).1 =
          .error e2) := by
  rcases hk : deriveKeyPattern path content with _ | ⟨key, pattern, numLines⟩
  · rw [hk] at h; simp at h
  · rcases hc : cacheGet cache key with _ | val
    · rcases hg : grep1 numLines path pattern with _ | n
      · have h1 : getLocation cache grep1 path content =
            (.error ("unable to get location in file " ++ path),
              cacheSet cache key (-1)) := by
          unfold getLocation
          simp [hk, hc, hg]
        have h2 : getLocation (cacheSet cache key (-1)) grep2 path content =
            (.error "unable to get location due to a previous error",
              cacheSet cache key (-1)) := by
          unfold getLocation
          simp [hk, cacheGet_cacheSet]
        simp [h1, h2]
      · by_cases hn : n = -1
        · have h1 : getLocation cache grep1 path content =
              (.error ("unable to get location in file " ++ path),
                cacheSet cache key (-1)) := by
            unfold getLocation
            simp [hk, hc, hg, hn]
          have h2 : getLocation (cacheSet cache key (-1)) grep2 path content =
              (.error "unable to get location due to a previous error",
                cacheSet cache key (-1)) := by
            unfold getLocation
            simp [hk, cacheGet_cacheSet]
          simp [h1, h2]
        · have h1 : getLocation cache grep1 path content =
              (.ok ⟨n, n⟩, cacheSet cache key n) := by
            unfold getLocation
            simp [hk, hc, hg, hn]
          have h2 : getLocation (cacheSet cache key n) grep2 path content =
              (.ok ⟨n, n⟩, cacheSet cache key n) := by
            unfold getLocation
            simp [hk, cacheGet_cacheSet, hn]
          simp [h1, h2]
    · by_cases hv : val = -1
      · have h1 : getLocation cache grep1 path content =
            (.error "unable to get location due to a previous error", cache) := by
          unfold getLocation
          simp [hk, hc, hv]
        have h2 : getLocation cache grep2 path content =
            (.error "unable to get location due to a previous error", cache) := by
          unfold getLocation
          simp [hk, hc, hv]
        simp [h1, h2]
      · have h1 : getLocation cache grep1 path content =
            (.ok ⟨val, val⟩, cache) := by
          unfold getLocation
          simp [hk, hc, hv]
        have h2 : getLocation cache grep2 path content =
            (.ok ⟨val, val⟩, cache) := by
          unfold getLocation
          simp [hk, hc, hv]
        simp [h1, h2]

/-- C6 witness: concrete replay — the first call resolves line 7 for the
one-line content `a` in file `/f`, the second call returns the same location
with an oracle that now fails, and the cache is unchanged by the replay. -/
theorem getLocation_replays_cached_witness :
    (deriveKeyPattern "/f" "a").isSome = true ∧
    ((getLocation ((getLocation [] (fun _ _ _ => some 7) "/f" "a").2)
        (fun _ _ _ => none) "/f" "a").1 = .ok ⟨7, 7⟩) :=
  ⟨by decide,
    (getLocation_replays_cached [] (fun _ _ _ => some 7) (fun _ _ _ => none)
      "/f" "a" (by decide)).2.1 ⟨7, 7⟩ rfl⟩

/- ### C3: candidate paths of the `json` capability -/

/-- The file-path list the `json` case hands to `provider.GetFiles`
(an empty list means GetFiles falls back to a full tree search for the
`*.json` pattern).  `scp` is `GetScopedFilepaths` of the provider
context (`none` when no scoped list is supplied).  The code guards the
fallback branch on the *XML* condition's filepaths but then assigns the
*JSON* condition's filepaths. -/
def jsonCandidatePaths (scp : Option (List String))
    (xmlFilepaths jsonFilepaths : List String) : List String :=
  match scp with
  | some paths => paths
  | none => if xmlFilepaths.length > 0 then jsonFilepaths else []

/-- The same resolution as claim C3 words it: with no scoped list and a
non-empty JSON filepaths list, the candidate set is exactly the JSON
filepaths list. -/
def claimJsonCandidatePaths (scp : Option (List String))
    (jsonFilepaths : List String) : List String :=
  match scp with
  | some paths => paths
  | none => if jsonFilepaths.length > 0 then jsonFilepaths else []

/-- C3: with no scoped file-path list, an empty XML filepaths field (the
normal state for a json condition) and the JSON filepaths list `["a.json"]`,
the code produces the empty candidate list — i.e. a full `*.json` tree
search — although the claim requires exactly `["a.json"]`: the guard reads
`cond.XML.Filepaths` where `cond.JSON.Filepaths` is meant. -/
theorem jsonCandidatePaths_wrong_guard :
    jsonCandidatePaths none [] ["a.json"] = [] ∧
    claimJsonCandidatePaths none ["a.json"] = ["a.json"] := by
  constructor <;> rfl

/- ### C4: document-set resolution of `xml` versus `xmlPublicID` -/

/-- Go `filepath.Base`. -/
def goBase (p : String) : String :=
  if p = "" then "."
  else
    match ((goSplit p '/').filter (fun s => s ≠ "")).getLast? with
    | some last => last
    | none => "/"

/-- The narrowing loop of the `xml` case: for each condition filepath `p`
and each scoped path, the path is appended when `p` equals it and appended
again when its base name equals `p`. -/
def xmlNarrow (condPaths scopedPaths : List String) : List String :=
  condPaths.flatMap (fun p => scopedPaths.flatMap (fun path =>
    (if p = path then [path] else []) ++
      (if goBase path = p then [path] else [])))

/-- The narrowing loop of the `xmlPublicID` case: exact equality only — the
base-name comparison of the `xml` case is absent. -/
def publicIDNarrow (condPaths scopedPaths : List String) : List String :=
  condPaths.flatMap (fun p => scopedPaths.flatMap (fun path =>
    if p = path then [path] else []))

/-- Document-set resolution of the `xml` case.  `none` models the early
`return response, nil` taken when a requested narrowing yields nothing;
`some []` means an unrestricted `*.xml`/`*.xhtml` tree search; `some l`
restricts the search to `l`. -/
def xmlResolvePaths (scp : Option (List String)) (condPaths : List String) :
    Option (List String) :=
  match scp with
  | some paths =>
    if condPaths.length > 0 then
      let newPaths := xmlNarrow condPaths paths
      if newPaths.length = 0 then none else some newPaths
    else some paths
  | none => if condPaths.length > 0 then some condPaths else some []

/-- Document-set resolution of the `xmlPublicID` case (which also reads the
`cond.XML.Filepaths` field, not a field of its own). -/
def publicIDResolvePaths (scp : Option (List String))
    (condPaths : List String) : Option (List String) :=
  match scp with
  | some paths =>
    if condPaths.length > 0 then
      let newPaths := publicIDNarrow condPaths paths
      if newPaths.length = 0 then none else some newPaths
    else some paths
  | none => if condPaths.length > 0 then some condPaths else some []

/-- C4 counterexample: for the scoped list `["d/a.xml"]` and the condition
filepaths `["a.xml"]`, the `xml` case keeps `d/a.xml` through the base-name
comparison, while the `xmlPublicID` case finds an empty intersection and
returns no matches — the two resolutions are not the same. -/
theorem publicIDResolvePaths_ne_xmlResolvePaths :
    xmlResolvePaths (some ["d/a.xml"]) ["a.xml"] = some ["d/a.xml"] ∧
    publicIDResolvePaths (some ["d/a.xml"]) ["a.xml"] = none := by
  constructor <;> rfl

/-- C4 (amended): the `xmlPublicID` resolution follows the `xml` resolution
except in the narrowing of a scoped list by condition filepaths, where it
keeps a scoped path only when it *equals* a condition filepath — the
base-name comparison of the `xml` case is absent.  Outside that branch (no
scoped list, or no condition filepaths) the two resolutions agree, and a
requested narrowing that yields nothing still returns no matches instead of
falling back to a full scan. -/
theorem publicIDResolvePaths_amended (scp : Option (List String))
    (condPaths : List String) :
    (∀ x scopedPaths, x ∈ publicIDNarrow condPaths scopedPaths ↔
      (x ∈ scopedPaths ∧ x ∈ condPaths)) ∧
    (∀ x scopedPaths, x ∈ xmlNarrow condPaths scopedPaths ↔
      (x ∈ scopedPaths ∧ (x ∈ condPaths ∨ goBase x ∈ condPaths))) ∧
    ((scp = none ∨ condPaths = []) →
      publicIDResolvePaths scp condPaths = xmlResolvePaths scp condPaths) ∧
    (∀ paths, scp = some paths → condPaths ≠ [] →
      publicIDNarrow condPaths paths = [] →
      publicIDResolvePaths scp condPaths = none) := by
  refine ⟨?_, ?_, ?_, ?_⟩
  · intro x scopedPaths
    unfold publicIDNarrow
    simp only [List.mem_flatMap]
    constructor
    · rintro ⟨p, hp, path, hpath, hx⟩
      by_cases he : p = path
      · rw [if_pos he] at hx
        rw [List.mem_singleton] at hx
        subst hx
        exact ⟨hpath, he ▸ hp⟩
      · rw [if_neg he] at hx
        exact absurd hx (List.not_mem_nil x)
    · rintro ⟨hxs, hxc⟩
      exact ⟨x, hxc, x, hxs, by simp⟩
  · intro x scopedPaths
    unfold xmlNarrow
    simp only [List.mem_flatMap, List.mem_append]
    constructor
    · rintro ⟨p, hp, path, hpath, hx | hx⟩
      · by_cases he : p = path
        · rw [if_pos he] at hx
          rw [List.mem_singleton] at hx
          subst hx
          exact ⟨hpath, Or.inl (he ▸ hp)⟩
        · rw [if_neg he] at hx
          exact absurd hx (List.not_mem_nil x)
      · by_cases he : goBase path = p
        · rw [if_pos he] at hx
          rw [List.mem_singleton] at hx
          subst hx
          exact ⟨hpath, Or.inr (he ▸ hp)⟩
        · rw [if_neg he] at hx
          exact absurd hx (List.not_mem_nil x)
    · rintro ⟨hxs, hxc | hxc⟩
      · exact ⟨x, hxc, x, hxs, Or.inl (by simp)⟩
      · exact ⟨goBase x, hxc, x, hxs, Or.inr (by simp)⟩
  · rintro (rfl | rfl)
    · rfl
    · cases scp with
      | none => rfl
      | some paths => rfl
  · rintro paths rfl hne hnil
    unfold publicIDResolvePaths
    have hlen : condPaths.length > 0 := List.length_pos.mpr hne
    simp [hlen, hnil]

/-- C4 amended witness: with the scoped list `["b"]` and condition filepaths
`["a"]`, the `xmlPublicID` narrowing is empty and the resolution returns no
matches without falling back to a full scan. -/
theorem publicIDResolvePaths_amended_witness :
    publicIDResolvePaths (some ["b"]) ["a"] = none :=
  (publicIDResolvePaths_amended (some ["b"]) ["a"]).2.2.2 ["b"] rfl
    (by decide) rfl

/- ### Data model of evaluation responses (C2, C7, C10) -/

/-- Go `strings.TrimSpace` (ASCII whitespace). -/
def goTrimSpace (s : String) : String :=
  let isSp := fun (c : Char) =>
    c = ' ' || c = '\t' || c = '\n' || c = '\r' || c = '\x0b' || c = '\x0c'
  String.mk (((s.data.dropWhile isSp).reverse.dropWhile isSp).reverse)

/-- `uri.File`: the `file://` URI of an absolute path. -/
def uriFile (p : String) : String := "file://" ++ p

/-- An attribute of an XML node (`xml.Attr` with its local name). -/
structure XMLAttr where
  name : String
  value : String
deriving DecidableEq, Repr

/-- An XML document node as the evaluation loops see it: its outer XML, its
inner text, its `Data`, and its attributes. -/
structure XMLNode where
  outputXML : String
  innerText : String
  data : String
  attrs : List XMLAttr
deriving DecidableEq, Repr

/-- A JSON document node: its inner text and its `Data`. -/
structure JSONNode where
  innerText : String
  data : String
deriving DecidableEq, Repr

/-- `provider.IncidentContext` as used by this client. -/
structure Incident where
  fileURI : String
  lineNumber : Option Int
  codeLocation : Option CodeLoc
  vars : List (String × String)
deriving DecidableEq, Repr

/-- `provider.ProviderEvaluateResponse` as used by this client: the matched
flag, the incident list, and (for the `file` capability) the matched
file-path list placed in the template context. -/
structure EvalResponse where
  matched : Bool
  incidents : List Incident
  templateFilepaths : Option (List String)
deriving DecidableEq, Repr

/-- The response every capability starts from. -/
def initResponse : EvalResponse :=
  { matched := false, incidents := [], templateFilepaths := none }

/-- The service-client configuration an evaluation reads: the configured
included paths, the analysis root location, the working directory and the
`os.Stat` oracle for `isFileIncluded`. -/
structure ClientCfg where
  includedPaths : List String
  location : String
  wd : String
  statDir : String → Option Bool

/-- `p.isFileIncluded(absPath)` for a configured client. -/
def cfgIncluded (cfg : ClientCfg) (absPath : String) : Bool :=
  isFileIncluded cfg.includedPaths cfg.location cfg.wd cfg.statDir absPath

/- ### The `xml` case per-node and per-file loops (C2) -/

/-- The incident the `xml` case builds for one node, with the optional code
location resolved through `getLocation` keyed on the trimmed inner text
(falling back to `Data` when blank). -/
def evalXMLNodes (cfg : ClientCfg) (grep : Nat → String → String → Option Int)
    (file : String) :
    EvalResponse → Cache → List XMLNode → EvalResponse × Cache
  | resp, cache, [] => (resp, cache)
  | resp, cache, node :: rest =>
    let absPath := goAbs cfg.wd file
    if cfgIncluded cfg absPath then
      let base : Incident :=
        { fileURI := uriFile absPath, lineNumber := none, codeLocation := none,
          vars := [("matchingXML", node.outputXML),
                   ("innerText", node.innerText), ("data", node.data)] }
      let content :=
        let c := goTrimSpace node.innerText
        if c = "" then node.data else c
      match getLocation cache grep absPath content with
      | (Except.ok loc, cache2) =>
        evalXMLNodes cfg grep file
          { resp with incidents := resp.incidents ++
              [{ base with lineNumber := some loc.startLine,
                           codeLocation := some loc }] }
          cache2 rest
      | (Except.error _, cache2) =>
        evalXMLNodes cfg grep file
          { resp with incidents := resp.incidents ++ [base] } cache2 rest
    else evalXMLNodes cfg grep file resp cache rest

/-- The per-file loop of the `xml` case: a file whose query fails is skipped;
a file with a non-empty node list sets `Matched` *before* the per-node loop
applies inclusion filtering. -/
def evaluateXML (cfg : ClientCfg) (grep : Nat → String → String → Option Int)
    (query : String → Except String (List XMLNode)) :
    EvalResponse → Cache → List String → EvalResponse × Cache
  | resp, cache, [] => (resp, cache)
  | resp, cache, file :: rest =>
    match query file with
    | Except.error _ => evaluateXML cfg grep query resp cache rest
    | Except.ok nodes =>
      if nodes.length ≠ 0 then
        let (resp2, cache2) :=
          evalXMLNodes cfg grep file { resp with matched := true } cache nodes
        evaluateXML cfg grep query resp2 cache2 rest
      else evaluateXML cfg grep query resp cache rest

/- ### The `json` case loops (C2) -/

/-- What opening, parsing and querying one JSON file can produce: an open or
parse failure (logged, file skipped), a `QueryAll` failure (the whole
evaluation returns immediately with the partial response), or a node list. -/
inductive JSONQueryResult where
  | skipFile
  | abort (e : String)
  | nodes (l : List JSONNode)

/-- The per-node loop of the `json` case. -/
def evalJSONNodes (cfg : ClientCfg) (grep : Nat → String → String → Option Int)
    (file : String) :
    EvalResponse → Cache → List JSONNode → EvalResponse × Cache
  | resp, cache, [] => (resp, cache)
  | resp, cache, node :: rest =>
    let absPath := goAbs cfg.wd file
    if cfgIncluded cfg absPath then
      let base : Incident :=
        { fileURI := uriFile absPath, lineNumber := none, codeLocation := none,
          vars := [("matchingJSON", node.innerText), ("data", node.data)] }
      match getLocation cache grep absPath node.innerText with
      | (Except.ok loc, cache2) =>
        evalJSONNodes cfg grep file
          { resp with incidents := resp.incidents ++
              [{ base with lineNumber := some loc.startLine,
                           codeLocation := some loc }] }
          cache2 rest
      | (Except.error _, cache2) =>
        evalJSONNodes cfg grep file
          { resp with incidents := resp.incidents ++ [base] } cache2 rest
    else evalJSONNodes cfg grep file resp cache rest

/-- The per-file loop of the `json` case: open/parse failures skip the file,
a query failure aborts with the partial response, and a non-empty result
list sets `Matched` before the per-node inclusion filtering. -/
def evaluateJSON (cfg : ClientCfg) (grep : Nat → String → String → Option Int)
    (jquery : String → JSONQueryResult) :
    EvalResponse → Cache → List String → EvalResponse × Cache × Option String
  | resp, cache, [] => (resp, cache, none)
  | resp, cache, file :: rest =>
    match jquery file with
    | JSONQueryResult.skipFile => evaluateJSON cfg grep jquery resp cache rest
    | JSONQueryResult.abort e => (resp, cache, some e)
    | JSONQueryResult.nodes l =>
      if l.length ≠ 0 then
        let (resp2, cache2) :=
          evalJSONNodes cfg grep file { resp with matched := true } cache l
        evaluateJSON cfg grep jquery resp2 cache2 rest
      else evaluateJSON cfg grep jquery resp cache rest

/- ### The `xmlPublicID` case loops (C2) -/

/-- The attribute scan of the `xmlPublicID` per-node loop: the inner loop
breaks at the *first* attribute whose local name is `public-id`, so only
that attribute's value is ever tested against the regex. -/
def findPublicID (attrs : List XMLAttr) : Option String :=
  match List.find? (fun a => a.name == "public-id") attrs with
  | some a => some a.value
  | none => none

/-- The per-node loop of the `xmlPublicID` case.  `rmatch` is the compiled
public-id regex oracle.  On a regex match `Matched` is set *before* the
inclusion filter decides whether an incident is appended; no code location
is resolved. -/
def evalPublicIDNodes (cfg : ClientCfg) (rmatch : String → Bool)
    (file : String) : EvalResponse → List XMLNode → EvalResponse
  | resp, [] => resp
  | resp, node :: rest =>
    match findPublicID node.attrs with
    | none => evalPublicIDNodes cfg rmatch file resp rest
    | some v =>
      if rmatch v then
        let resp2 := { resp with matched := true }
        let absPath := goAbs cfg.wd file
        if cfgIncluded cfg absPath then
          evalPublicIDNodes cfg rmatch file
            { resp2 with incidents := resp2.incidents ++
                [{ fileURI := uriFile absPath, lineNumber := none,
                   codeLocation := none,
                   vars := [("matchingXML", node.outputXML),
                            ("innerText", node.innerText),
                            ("data", node.data)] }] } rest
        else evalPublicIDNodes cfg rmatch file resp2 rest
      else evalPublicIDNodes cfg rmatch file resp rest

/-- The per-file loop of the `xmlPublicID` case: files whose query fails are
skipped. -/
def evaluatePublicID (cfg : ClientCfg) (rmatch : String → Bool)
    (query : String → Except String (List XMLNode)) :
    EvalResponse → List String → EvalResponse
  | resp, [] => resp
  | resp, file :: rest =>
    match query file with
    | Except.error _ => evaluatePublicID cfg rmatch query resp rest
    | Except.ok nodes =>
      evaluatePublicID cfg rmatch query
        (evalPublicIDNodes cfg rmatch file resp nodes) rest

/- ### The `file` case incident loop (C2, C10) -/

/-- The incident loop of the `file` case: every matching path is made
absolute, filtered by inclusion, and turned into a bare file-URI incident;
the template context keeps the *unfiltered* match list, and `Matched` is
`len(incidents) > 0`. -/
def evaluateFileIncidents (cfg : ClientCfg) (matchingFiles : List String) :
    EvalResponse :=
  let incidents := matchingFiles.foldl (fun acc m =>
    let absPath := if goHasPrefix m "/" then m else goAbs cfg.wd m
    if cfgIncluded cfg absPath then
      acc ++ [{ fileURI := uriFile absPath, lineNumber := none,
                codeLocation := none, vars := [] : Incident }]
    else acc) []
  { matched := decide (incidents.length > 0), incidents := incidents,
    templateFilepaths := some matchingFiles }

/- ### C2: the matched / incident relationship -/

/-- The per-node `xml` loop never changes the matched flag. -/
theorem evalXMLNodes_matched (cfg : ClientCfg)
    (grep : Nat → String → String → Option Int) (file : String) :
    ∀ (nodes : List XMLNode) (resp : EvalResponse) (cache : Cache),
    (evalXMLNodes cfg grep file resp cache nodes).1.matched = resp.matched := by
  intro nodes
  induction nodes with
  | nil => intro resp cache; rfl
  | cons node rest ih =>
    intro resp cache
    simp only [evalXMLNodes]
    split
    · split
      · exact ih _ _
      · exact ih _ _
    · exact ih _ _

/-- The `xml` per-file loop never clears the matched flag. -/
theorem evaluateXML_matched_mono (cfg : ClientCfg)
    (grep : Nat → String → String → Option Int)
    (query : String → Except String (List XMLNode)) :
    ∀ (files : List String) (resp : EvalResponse) (cache : Cache),
    resp.matched = true →
    (evaluateXML cfg grep query resp cache files).1.matched = true := by
  intro files
  induction files with
  | nil => intro resp cache h; exact h
  | cons file rest ih =>
    intro resp cache h
    simp only [evaluateXML]
    split
    · exact ih _ _ h
    · split
      · exact ih _ _ (by rw [evalXMLNodes_matched])
      · exact ih _ _ h

/-- If the `xml` per-file loop ends unmatched, it appended no incident. -/
theorem evaluateXML_incidents_of_unmatched (cfg : ClientCfg)
    (grep : Nat → String → String → Option Int)
    (query : String → Except String (List XMLNode)) :
    ∀ (files : List String) (resp : EvalResponse) (cache : Cache),
    (evaluateXML cfg grep query resp cache files).1.matched = false →
    (evaluateXML cfg grep query resp cache files).1.incidents = resp.incidents := by
  intro files
  induction files with
  | nil => intro resp cache _; rfl
  | cons file rest ih =>
    intro resp cache h
    rcases hq : query file with e | nodes
    · simp only [evaluateXML, hq] at h ⊢
      exact ih _ _ h
    · by_cases hn : nodes.length ≠ 0
      · exfalso
        simp only [evaluateXML, hq] at h
        rw [if_pos hn] at h
        rw [evaluateXML_matched_mono cfg grep query rest _ _
          (by rw [evalXMLNodes_matched])] at h
        exact Bool.noConfusion h
      · simp only [evaluateXML, hq] at h ⊢
        rw [if_neg hn] at h ⊢
        exact ih _ _ h

/-- The per-node `json` loop never changes the matched flag. -/
theorem evalJSONNodes_matched (cfg : ClientCfg)
    (grep : Nat → String → String → Option Int) (file : String) :
    ∀ (nodes : List JSONNode) (resp : EvalResponse) (cache : Cache),
    (evalJSONNodes cfg grep file resp cache nodes).1.matched = resp.matched := by
  intro nodes
  induction nodes with
  | nil => intro resp cache; rfl
  | cons node rest ih =>
    intro resp cache
    simp only [evalJSONNodes]
    split
    · split
      · exact ih _ _
      · exact ih _ _
    · exact ih _ _

/-- The `json` per-file loop never clears the matched flag. -/
theorem evaluateJSON_matched_mono (cfg : ClientCfg)
    (grep : Nat → String → String → Option Int)
    (jquery : String → JSONQueryResult) :
    ∀ (files : List String) (resp : EvalResponse) (cache : Cache),
    resp.matched = true →
    (evaluateJSON cfg grep jquery resp cache files).1.matched = true := by
  intro files
  induction files with
  | nil => intro resp cache h; exact h
  | cons file rest ih =>
    intro resp cache h
    rcases hq : jquery file with _ | e | l
    · simp only [evaluateJSON, hq]
      exact ih _ _ h
    · simp only [evaluateJSON, hq]
      exact h
    · by_cases hn : l.length ≠ 0
      · simp only [evaluateJSON, hq]
        rw [if_pos hn]
        exact ih _ _ (by rw [evalJSONNodes_matched])
      · simp only [evaluateJSON, hq]
        rw [if_neg hn]
        exact ih _ _ h

/-- If the `json` per-file loop ends unmatched, it appended no incident. -/
theorem evaluateJSON_incidents_of_unmatched (cfg : ClientCfg)
    (grep : Nat → String → String → Option Int)
    (jquery : String → JSONQueryResult) :
    ∀ (files : List String) (resp : EvalResponse) (cache : Cache),
    (evaluateJSON cfg grep jquery resp cache files).1.matched = false →
    (evaluateJSON cfg grep jquery resp cache files).1.incidents =
      resp.incidents := by
  intro files
  induction files with
  | nil => intro resp cache _; rfl
  | cons file rest ih =>
    intro resp cache h
    rcases hq : jquery file with _ | e | l
    · simp only [evaluateJSON, hq] at h ⊢
      exact ih _ _ h
    · simp only [evaluateJSON, hq] at h ⊢
    · by_cases hn : l.length ≠ 0
      · exfalso
        simp only [evaluateJSON, hq] at h
        rw [if_pos hn] at h
        rw [evaluateJSON_matched_mono cfg grep jquery rest _ _
          (by rw [evalJSONNodes_matched])] at h
        exact Bool.noConfusion h
      · simp only [evaluateJSON, hq] at h ⊢
        rw [if_neg hn] at h ⊢
        exact ih _ _ h

/-- The per-node `xmlPublicID` loop never clears the matched flag. -/
theorem evalPublicIDNodes_matched_mono (cfg : ClientCfg)
    (rmatch : String → Bool) (file : String) :
    ∀ (nodes : List XMLNode) (resp : EvalResponse),
    resp.matched = true →
    (evalPublicIDNodes cfg rmatch file resp nodes).matched = true := by
  intro nodes
  induction nodes with
  | nil => intro resp h; exact h
  | cons node rest ih =>
    intro resp h
    simp only [evalPublicIDNodes]
    split
    · exact ih _ h
    · split
      · split
        · exact ih _ rfl
        · exact ih _ rfl
      · exact ih _ h

/-- If the per-node `xmlPublicID` loop ends unmatched, it appended no
incident. -/
theorem evalPublicIDNodes_incidents_of_unmatched (cfg : ClientCfg)
    (rmatch : String → Bool) (file : String) :
    ∀ (nodes : List XMLNode) (resp : EvalResponse),
    (evalPublicIDNodes cfg rmatch file resp nodes).matched = false →
    (evalPublicIDNodes cfg rmatch file resp nodes).incidents =
      resp.incidents := by
  intro nodes
  induction nodes with
  | nil => intro resp _; rfl
  | cons node rest ih =>
    intro resp h
    rcases hfind : findPublicID node.attrs with _ | v
    · simp only [evalPublicIDNodes, hfind] at h ⊢
      exact ih _ h
    · by_cases hr : rmatch v = true
      · by_cases hinc : cfgIncluded cfg (goAbs cfg.wd file) = true
        · exfalso
          simp only [evalPublicIDNodes, hfind] at h
          rw [if_pos hr, if_pos hinc] at h
          rw [evalPublicIDNodes_matched_mono cfg rmatch file rest _ rfl] at h
          exact Bool.noConfusion h
        · exfalso
          simp only [evalPublicIDNodes, hfind] at h
          rw [if_pos hr, if_neg hinc] at h
          rw [evalPublicIDNodes_matched_mono cfg rmatch file rest _ rfl] at h
          exact Bool.noConfusion h
      · simp only [evalPublicIDNodes, hfind] at h ⊢
        rw [if_neg hr] at h ⊢
        exact ih _ h

/-- The `xmlPublicID` per-file loop never clears the matched flag. -/
theorem evaluatePublicID_matched_mono (cfg : ClientCfg)
    (rmatch : String → Bool)
    (query : String → Except String (List XMLNode)) :
    ∀ (files : List String) (resp : EvalResponse),
    resp.matched = true →
    (evaluatePublicID cfg rmatch query resp files).matched = true := by
  intro files
  induction files with
  | nil => intro resp h; exact h
  | cons file rest ih =>
    intro resp h
    rcases hq : query file with e | nodes
    · simp only [evaluatePublicID, hq]
      exact ih _ h
    · simp only [evaluatePublicID, hq]
      exact ih _ (evalPublicIDNodes_matched_mono cfg rmatch file nodes resp h)

/-- If the `xmlPublicID` per-file loop ends unmatched, it appended no
incident. -/
theorem evaluatePublicID_incidents_of_unmatched (cfg : ClientCfg)
    (rmatch : String → Bool)
    (query : String → Except String (List XMLNode)) :
    ∀ (files : List String) (resp : EvalResponse),
    (evaluatePublicID cfg rmatch query resp files).matched = false →
    (evaluatePublicID cfg rmatch query resp files).incidents =
      resp.incidents := by
  intro files
  induction files with
  | nil => intro resp _; rfl
  | cons file rest ih =>
    intro resp h
    rcases hq : query file with e | nodes
    · simp only [evaluatePublicID, hq] at h ⊢
      exact ih _ h
    · simp only [evaluatePublicID, hq] at h ⊢
      have hnodes :
          (evalPublicIDNodes cfg rmatch file resp nodes).matched = false := by
        by_contra hc
        rw [evaluatePublicID_matched_mono cfg rmatch query rest _
          (Bool.of_not_eq_false hc)] at h
        exact Bool.noConfusion h
      rw [ih _ h]
      exact evalPublicIDNodes_incidents_of_unmatched cfg rmatch file nodes
        resp hnodes

/-- C2 counterexample: one XML file whose query returns one node, with an
included-paths configuration that excludes the file.  The `xml` case sets
`Matched` as soon as the node list is non-empty — before inclusion filtering
— so the response has `matched = true` with an *empty* incident list,
refuting the claimed "matched iff at least one incident was appended". -/
theorem evaluateXML_matched_with_no_incident :
    (evaluateXML ⟨["sub"], "/root", "/", fun _ => none⟩ (fun _ _ _ => none)
        (fun _ => Except.ok [⟨"<a/>", "t", "a", []⟩]) initResponse []
        ["f.xml"]).1.matched = true ∧
    (evaluateXML ⟨["sub"], "/root", "/", fun _ => none⟩ (fun _ _ _ => none)
        (fun _ => Except.ok [⟨"<a/>", "t", "a", []⟩]) initResponse []
        ["f.xml"]).1.incidents = [] := by
  constructor <;> rfl

/- ### C7: `parallelWalk` and the `filecontent` error path -/

/-- A `walkResult`: the file URI, the 1-based line, the 0-based character
offset and the matched text of one content match. -/
structure WalkResult where
  uri : String
  line : Nat
  character : Nat
  matchText : String
deriving DecidableEq, Repr

/-- The worker outcomes of `parallelWalk`, determinised in file order:
every scheduled task runs (`eg.Wait` has no cancellation), and the first
task error becomes the error of the whole walk; with no error the per-file
results are merged. -/
def parallelWalkRun (process : String → Except String (List WalkResult)) :
    List String → Except String (List WalkResult)
  | [] => Except.ok []
  | f :: rest =>
    match process f with
    | Except.error e => Except.error e
    | Except.ok rs =>
      match parallelWalkRun process rest with
      | Except.error e => Except.error e
      | Except.ok more => Except.ok (rs ++ more)

/-- `parallelWalk` over the regular files of a tree: the walk callback
calls `eg.Go` for every regular file unconditionally — it has no view of
worker errors, and the plain `errgroup.Group` (no `WithContext`) has no
cancellation, so scheduling never stops on an error.  The second component
is the list of files actually handed to the pool. -/
def parallelWalk (process : String → Except String (List WalkResult))
    (files : List String) : Except String (List WalkResult) × List String :=
  (parallelWalkRun process files, files)

/-- The match loop of the `filecontent` case: each raw match is filtered by
the optional secondary file pattern (`provider.FilterFilePattern`, an
external collaborator given as the `filterFile` oracle; a filter error
returns the partial response with that error). -/
def filecontentFold (filterFile : String → String → Except String Bool)
    (filePattern : String) :
    EvalResponse → List WalkResult → EvalResponse × Option String
  | resp, [] => (resp, none)
  | resp, m :: rest =>
    match filterFile filePattern m.uri with
    | Except.error e => (resp, some e)
    | Except.ok false => filecontentFold filterFile filePattern resp rest
    | Except.ok true =>
      filecontentFold filterFile filePattern
        { resp with incidents := resp.incidents ++
            [{ fileURI := m.uri, lineNumber := some (Int.ofNat m.line),
               codeLocation := some ⟨Int.ofNat m.line, Int.ofNat m.line⟩,
               vars := [("matchingText", m.matchText)] }] } rest

/-- The `filecontent` case after its pattern has compiled: a scan error is
returned as the evaluation's error with the still-empty response; otherwise
the matches are folded into incidents and `Matched` is set iff any incident
was produced. -/
def evaluateFilecontent (filterFile : String → String → Except String Bool)
    (filePattern : String)
    (process : String → Except String (List WalkResult))
    (files : List String) : EvalResponse × Option String :=
  match (parallelWalk process files).1 with
  | Except.error e => (initResponse, some e)
  | Except.ok results =>
    match filecontentFold filterFile filePattern initResponse results with
    | (resp, some e) => (resp, some e)
    | (resp, none) =>
      ({ resp with matched := decide (resp.incidents.length ≠ 0) }, none)

/-- C7 counterexample: with two regular files of which the first fails, the
second file is still scheduled — the scheduled list is `["a", "b"]`, not the
`["a"]` the claim's "no further files are scheduled after the first error"
requires — because the walk callback schedules unconditionally and the plain
errgroup has no cancellation. -/
theorem parallelWalk_keeps_scheduling_after_error :
    (parallelWalk (fun f => if f = "a" then Except.error "boom"
        else Except.ok []) ["a", "b"]).2 = ["a", "b"] ∧
    (fun (f : String) => if f = "a" then Except.error "boom"
        else Except.ok ([] : List WalkResult)) "a" = Except.error "boom" ∧
    (parallelWalk (fun f => if f = "a" then Except.error "boom"
        else Except.ok []) ["a", "b"]).2 ≠ ["a"] := by
  refine ⟨rfl, rfl, by decide⟩

/-- The determinised walk errors exactly when some file's processing
errors. -/
theorem parallelWalkRun_error_iff
    (process : String → Except String (List WalkResult)) :
    ∀ files : List String,
    (∃ e, parallelWalkRun process files = Except.error e) ↔
      (∃ f ∈ files, ∃ e, process f = Except.error e) := by
  intro files
  induction files with
  | nil => simp [parallelWalkRun]
  | cons g rest ih =>
    constructor
    · rintro ⟨e, he⟩
      rcases hp : process g with e2 | rs
      · exact ⟨g, List.mem_cons_self g rest, e2, hp⟩
      · simp only [parallelWalkRun, hp] at he
        rcases hr : parallelWalkRun process rest with e3 | more
        · rcases ih.mp ⟨e3, hr⟩ with ⟨f, hf, e4, he4⟩
          exact ⟨f, List.mem_cons_of_mem g hf, e4, he4⟩
        · rw [hr] at he
          exact absurd he (by simp)
    · rintro ⟨f, hf, e, he⟩
      rcases List.mem_cons.mp hf with rfl | hf2
      · refine ⟨e, ?_⟩
        simp only [parallelWalkRun, he]
      · rcases hp : process g with e2 | rs
        · exact ⟨e2, by simp only [parallelWalkRun, hp]⟩
        · rcases ih.mpr ⟨f, hf2, e, he⟩ with ⟨e3, he3⟩
          refine ⟨e3, ?_⟩
          simp only [parallelWalkRun, hp, he3]

/-- C7 (amended): if any regular file fails, the whole evaluation fails —
the walk errors exactly when some file's processing errors — and Evaluate
returns that error with no incidents; but every regular file is scheduled
regardless of earlier errors (the already-scheduled workers all run; the
first recorded error is surfaced only after the wait). -/
theorem parallelWalk_error_amended (files : List String)
    (process : String → Except String (List WalkResult))
    (filterFile : String → String → Except String Bool) (filePattern : String) :
    (parallelWalk process files).2 = files ∧
    ((∃ f ∈ files, ∃ e, process f = Except.error e) ↔
      (∃ e, (parallelWalk process files).1 = Except.error e)) ∧
    (∀ e, (parallelWalk process files).1 = Except.error e →
      evaluateFilecontent filterFile filePattern process files =
        (initResponse, some e)) := by
  refine ⟨rfl, ?_, ?_⟩
  · exact (parallelWalkRun_error_iff process files).symm
  · intro e he
    unfold evaluateFilecontent
    rw [he]

/-- C7 amended witness: a single failing file makes the whole `filecontent`
evaluation return its error with the empty unmatched response. -/
theorem parallelWalk_error_amended_witness :
    evaluateFilecontent (fun _ _ => Except.ok true) ""
      (fun _ => Except.error "boom") ["a"] = (initResponse, some "boom") :=
  (parallelWalk_error_amended ["a"] (fun _ => Except.error "boom")
      (fun _ _ => Except.ok true) "").2.2 "boom" rfl

/- ### The `hasTags` case and the full C2 amendment -/

/-- The `hasTags` case: purely logical — `found` stays true iff every
requested tag is in the provider context's tag set or the client's own
configured tag set; when found, `Matched` is set and exactly one incident
carrying the requested tag list is appended (no file URI, no location). -/
def evaluateHasTags (ctxTags clientTags requested : List String) :
    EvalResponse :=
  let found := requested.all (fun tag =>
    ctxTags.contains tag || clientTags.contains tag)
  if found then
    { matched := true,
      incidents := [{ fileURI := "", lineNumber := none, codeLocation := none,
                      vars := [("tags", goJoin "," requested)] }],
      templateFilepaths := none }
  else initResponse

/-- C2 (amended): appending an incident implies `matched` for the `xml`,
`json` and `xmlPublicID` capabilities, but the converse fails for them,
because `Matched` is set from the raw query results before inclusion
filtering and the filter may drop every result; for the `file` capability,
for the `filecontent` capability on its success path (a scan or filter error
returns early with `matched` still false), and for the `hasTags` capability,
`matched` is true *iff* an incident was appended. -/
theorem matched_incidents_amended (cfg : ClientCfg)
    (grep : Nat → String → String → Option Int)
    (query : String → Except String (List XMLNode))
    (jquery : String → JSONQueryResult) (rmatch : String → Bool)
    (files : List String) (cache : Cache) (matchingFiles : List String)
    (filterFile : String → String → Except String Bool) (filePattern : String)
    (process : String → Except String (List WalkResult))
    (ctxTags clientTags requested : List String) :
    ((evaluateXML cfg grep query initResponse cache files).1.incidents ≠ [] →
      (evaluateXML cfg grep query initResponse cache files).1.matched = true) ∧
    ((evaluateJSON cfg grep jquery initResponse cache files).1.incidents ≠ [] →
      (evaluateJSON cfg grep jquery initResponse cache files).1.matched = true) ∧
    ((evaluatePublicID cfg rmatch query initResponse files).incidents ≠ [] →
      (evaluatePublicID cfg rmatch query initResponse files).matched = true) ∧
    ((evaluateFileIncidents cfg matchingFiles).matched = true ↔
      (evaluateFileIncidents cfg matchingFiles).incidents ≠ []) ∧
    ((evaluateFilecontent filterFile filePattern process files).2 = none →
      ((evaluateFilecontent filterFile filePattern process files).1.matched =
          true ↔
        (evaluateFilecontent filterFile filePattern process
          files).1.incidents ≠ [])) ∧
    ((evaluateHasTags ctxTags clientTags requested).matched = true ↔
      (evaluateHasTags ctxTags clientTags requested).incidents ≠ []) := by
  refine ⟨?_, ?_, ?_, ?_, ?_, ?_⟩
  · intro h
    cases hm : (evaluateXML cfg grep query initResponse cache files).1.matched
    · exact absurd
        (evaluateXML_incidents_of_unmatched cfg grep query files initResponse
          cache hm) h
    · rfl
  · intro h
    cases hm : (evaluateJSON cfg grep jquery initResponse cache files).1.matched
    · exact absurd
        (evaluateJSON_incidents_of_unmatched cfg grep jquery files initResponse
          cache hm) h
    · rfl
  · intro h
    cases hm : (evaluatePublicID cfg rmatch query initResponse files).matched
    · exact absurd
        (evaluatePublicID_incidents_of_unmatched cfg rmatch query files
          initResponse hm) h
    · rfl
  · simp [evaluateFileIncidents, List.length_pos]
  · intro herr
    rcases hw : (parallelWalk process files).1 with e | results
    · unfold evaluateFilecontent at herr
      simp only [hw] at herr
      exact Option.noConfusion herr
    · unfold evaluateFilecontent at herr ⊢
      simp only [hw] at herr ⊢
      rcases hfold : filecontentFold filterFile filePattern initResponse
          results with ⟨resp, err2⟩
      simp only [hfold] at herr ⊢
      cases err2 with
      | some e => simp at herr
      | none => simp [List.length_eq_zero]
  · simp only [evaluateHasTags]
    by_cases hf : requested.all (fun tag =>
        ctxTags.contains tag || clientTags.contains tag) = true
    · rw [if_pos hf]
      simp
    · rw [if_neg hf]
      simp [initResponse]

/-- C2 amended witness: with everything included, the single XML node does
yield an incident, and the amended implication then forces `matched`. -/
theorem matched_incidents_amended_witness :
    (evaluateXML ⟨[], "/", "/", fun _ => none⟩ (fun _ _ _ => none)
        (fun _ => Except.ok [⟨"<a/>", "t", "a", []⟩]) initResponse []
        ["f.xml"]).1.matched = true :=
  (matched_incidents_amended ⟨[], "/", "/", fun _ => none⟩ (fun _ _ _ => none)
      (fun _ => Except.ok [⟨"<a/>", "t", "a", []⟩])
      (fun _ => JSONQueryResult.skipFile) (fun _ => false) ["f.xml"] [] []
      (fun _ _ => Except.ok true) "" (fun _ => Except.ok []) [] [] []).1
    (by decide)

/- ### C9: the concurrency ceiling of the scan pool -/

/-- The argument `parallelWalk` passes to `eg.SetLimit`. -/
def egSetLimit : Nat := 256

/-- Modelled from the spec: the bounded worker pool of the content scan
("dispatches one scanning task per regular file into a worker pool capped at
a fixed concurrency ceiling").  The pool itself is the external
`errgroup.Group` collaborator, whose contract after `SetLimit(n)` is that a
task starts only while fewer than `n` are active.  The state counts files
not yet handed to the pool and tasks currently running (each running task
holds its file open). -/
structure PoolState where
  pending : Nat
  running : Nat
deriving DecidableEq, Repr

/-- One scheduler step: a pending scan task starts only below the ceiling;
a running task may finish at any time. -/
inductive PoolStep : PoolState → PoolState → Prop
  | start (p r : Nat) : p > 0 → r < egSetLimit →
      PoolStep ⟨p, r⟩ ⟨p - 1, r + 1⟩
  | finish (p r : Nat) : r > 0 → PoolStep ⟨p, r⟩ ⟨p, r - 1⟩

/-- Reachability by scheduler steps. -/
inductive PoolReach : PoolState → PoolState → Prop
  | refl (s : PoolState) : PoolReach s s
  | tail {s t u : PoolState} : PoolReach s t → PoolStep t u → PoolReach s u

/-- C9: however many regular files a scan starts with, every reachable pool
state has at most `SetLimit = 256` scanning tasks — hence open files —
running at once. -/
theorem poolReach_running_le_limit (n : Nat) (s : PoolState)
    (h : PoolReach ⟨n, 0⟩ s) : s.running ≤ egSetLimit := by
  induction h with
  | refl => exact Nat.zero_le _
  | tail hreach hstep ih =>
    cases hstep with
    | start p r hp hr => exact hr
    | finish p r hr => exact Nat.le_trans (Nat.sub_le r 1) ih

/-- C9 witness: from five pending files, the state after starting one task
is reachable and within the ceiling. -/
theorem poolReach_running_le_limit_witness :
    (⟨4, 1⟩ : PoolState).running ≤ egSetLimit :=
  poolReach_running_le_limit 5 ⟨4, 1⟩
    (PoolReach.tail (PoolReach.refl _)
      (PoolStep.start 5 0 (by decide) (by decide)))

/- ### C10: the `file` capability, scoped list versus tree walk -/

/-- The scoped branch of the `file` case: with a pre-scoped file-path list,
the compiled pattern is tested against each *full path* string.  `rOk` says
whether the pattern compiled as a regex (`regex != nil`); `rm` is that
regex's `MatchString`; `globMatch` is `filepath.Match` on the raw pattern,
`none` being the bad-pattern error that skips the path. -/
def fileScopedMatches (rOk : Bool) (rm : String → Bool)
    (globMatch : String → Option Bool) (paths : List String) : List String :=
  paths.filter (fun path =>
    if rOk then rm path
    else
      match globMatch path with
      | none => false
      | some b => b)

/-- `findFilesMatchingPattern`, the tree-walk branch of the `file` case: the
pattern is tested against each directory entry's *name* (`d.Name()`), never
the full path; an entry is reported by its full path.  A glob error aborts
the walk (second component true). -/
def findFilesMatchingPattern (rOk : Bool) (rm : String → Bool)
    (globMatch : String → Option Bool) :
    List (String × String) → List String × Bool
  | [] => ([], false)
  | (path, name) :: rest =>
    match (if rOk then some (rm name) else globMatch name) with
    | none => ([], true)
    | some m =>
      let res := findFilesMatchingPattern rOk rm globMatch rest
      ((if m then path :: res.1 else res.1), res.2)

/-- C10: a compiled pattern that matches the entry name `a.xml` but not the
full path `d/a.xml` (e.g. the anchored regex `^a`) selects the file on a
tree walk but not from a scoped list containing the very same file — the two
branches test different strings, so the same pattern selects different files
for the same tree. -/
theorem fileScoped_vs_walk_differ (rm : String → Bool)
    (h1 : rm "d/a.xml" = false) (h2 : rm "a.xml" = true) :
    fileScopedMatches true rm (fun _ => none) ["d/a.xml"] = [] ∧
    (findFilesMatchingPattern true rm (fun _ => none)
      [("d/a.xml", "a.xml")]).1 = ["d/a.xml"] := by
  constructor
  · simp [fileScopedMatches, h1]
  · simp [findFilesMatchingPattern, h2]

/-- C10 witness: the prefix test `goHasPrefix s "a"` is exactly what the Go
regex `^a` computes; with it the scoped branch drops `d/a.xml` while the
walk branch reports it. -/
theorem fileScoped_vs_walk_differ_witness :
    fileScopedMatches true (fun s => goHasPrefix s "a") (fun _ => none)
      ["d/a.xml"] = [] ∧
    (findFilesMatchingPattern true (fun s => goHasPrefix s "a") (fun _ => none)
      [("d/a.xml", "a.xml")]).1 = ["d/a.xml"] :=
  fileScoped_vs_walk_differ (fun s => goHasPrefix s "a") (by decide) (by decide)
